import Mathlib

/-!
Verification of the worker-group synchronization engine of the
`service-lib` repository (EVM categorizer manager) and of its wire-level
message envelope (Reply / Broadcast).

The definitions below are a shallow embedding of the Go source:

* `blockchain/evm/categorizer/manager.go` — the manager: the subscription
  ingestor (`subscribe`), the live dispatcher
  (`categorize_current_smartcontracts`), the catch-up engine
  (`categorize_old_smartcontracts`), and the address-collection helper
  (`GetSmartcontractAddresses`).
* `app/remote/message/reply.go` (the unnamed source file) and
  `app/remote/message/broadcast.go` — the Reply and Broadcast messages
  with their wire encoding and decoding.

Helpers of the manager that live in files not included in the source tree
(the worker, the worker group constructor, the log filter and the block
accessor) are modelled from the specification; each such definition carries
a doc comment starting with `Modelled from the spec:`.

Machine integers (`uint64` block numbers) are modelled as `Nat`: none of
the verified paths performs arithmetic that can overflow 64 bits (the only
arithmetic is `+ 1` on a block number and comparisons).
-/

/-- A blockchain event log entry: it belongs to exactly one smartcontract
address and one block.  The payload beyond that association is opaque to
the core and is omitted. -/
structure SpaghettiLog where
  address : String
  block_number : Nat
deriving DecidableEq, Repr

/-- A smartcontract: its address and the categorized-block-number
watermark (highest block number whose logs have been applied). -/
structure Smartcontract where
  address : String
  categorized_block_number : Nat
deriving DecidableEq, Repr

/-- A smartcontract worker.  The Go worker also carries the contract ABI
used for decoding; decoding is an external collaborator and the ABI plays
no role in any verified path, so it is omitted here. -/
structure EvmWorker where
  smartcontract : Smartcontract
deriving DecidableEq, Repr

/-- An ingested block: network id, block number, timestamp and the ordered
log entries of that block. -/
structure SpaghettiBlock where
  network_id : String
  block_number : Nat
  block_timestamp : Nat
  logs : List SpaghettiLog
deriving DecidableEq, Repr

/-- A worker group of catch-up workers: the progress cursor
(`block_number`) and the member workers. -/
structure OldWorkerGroup where
  block_number : Nat
  workers : List EvmWorker
deriving DecidableEq, Repr

/-- The manager state relevant to the verified paths: the worker-group
collection, the live population, the live baseline
(`subscribed_earliest_block_number`, `0` meaning unset) and the block
queue (FIFO: pushed at the back, popped at the front). -/
structure Manager where
  old_categorizers : List OldWorkerGroup
  current_workers : List EvmWorker
  subscribed_earliest_block_number : Nat
  subscribed_blocks : List SpaghettiBlock
deriving DecidableEq, Repr

/-- Modelled from the spec: `worker.categorize(logs)` (§4.2 `apply`)
updates the categorization state and returns the resulting watermark; it
is a no-op on logs whose block number is at or below the current
watermark, so the new watermark is the maximum of the current watermark
and the block numbers of the applied logs.  Returns the updated worker
together with the returned watermark. -/
def EvmWorker.categorize (w : EvmWorker) (logs : List SpaghettiLog) :
    EvmWorker × Nat :=
  let nw := logs.foldl (fun acc l => Nat.max acc l.block_number)
    w.smartcontract.categorized_block_number
  (⟨⟨w.smartcontract.address, nw⟩⟩, nw)

/-- Modelled from the spec: `spaghetti_log.FilterByAddress` keeps the logs
belonging to the given smartcontract address (§4.3 Applying: "filter the
fetched logs to its address"). -/
def FilterByAddress (logs : List SpaghettiLog) (address : String) :
    List SpaghettiLog :=
  logs.filter (fun l => l.address = address)

/-- Modelled from the spec: `block.GetForSmartcontract` extracts the logs
of the given address from the block (§4.4 "extract this worker's logs from
the block"). -/
def SpaghettiBlock.GetForSmartcontract (b : SpaghettiBlock)
    (address : String) : List SpaghettiLog :=
  FilterByAddress b.logs address

/-- Modelled from the spec: `EvmWorkers.GetSmartcontractAddresses` lists
the addresses of the workers. -/
def workerAddresses (ws : List EvmWorker) : List String :=
  ws.map (fun w => w.smartcontract.address)

/-- `Manager.GetSmartcontractAddresses` (manager.go lines 87–97): the
addresses of all workers of all old-worker groups followed by the
addresses of the live (current) workers. -/
def Manager.GetSmartcontractAddresses (m : Manager) : List String :=
  (m.old_categorizers.foldl
    (fun acc group => acc ++ workerAddresses group.workers) [])
    ++ workerAddresses m.current_workers

/-- Modelled from the spec: `NewGroup` builds a worker group from the
starting block number and the member workers. -/
def NewGroup (block_number : Nat) (workers : List EvmWorker) :
    OldWorkerGroup :=
  ⟨block_number, workers⟩

/-- Modelled from the spec: `EvmWorkers.EarliestBlockNumber` is the
smallest watermark among the workers (`0` for an empty list). -/
def EarliestBlockNumber (ws : List EvmWorker) : Nat :=
  match ws.map (fun w => w.smartcontract.categorized_block_number) with
  | [] => 0
  | x :: xs => xs.foldl Nat.min x

/-- The historical-log request issued by one Fetching round of
`categorize_old_smartcontracts` (manager.go lines 177–181): the range
starts at `group.block_number + 1` and the address list is
`manager.GetSmartcontractAddresses()`. -/
structure LogFilterRequest where
  block_number_from : Nat
  addresses : List String
deriving DecidableEq, Repr

/-- The arguments of the `RemoteLogFilter` call made by a catch-up round
for `group` (manager.go lines 178–181). -/
def old_round_request (m : Manager) (group : OldWorkerGroup) :
    LogFilterRequest :=
  ⟨group.block_number + 1, m.GetSmartcontractAddresses⟩

/-- A result pushed to the downstream categorizer: the request built at
manager.go lines 198–204 / 252–258 carries the (already updated)
smartcontract and the logs that were applied. -/
structure PushedResult where
  smartcontract : Smartcontract
  logs : List SpaghettiLog
deriving DecidableEq, Repr

/-- The worker loop of one Applying round of
`categorize_old_smartcontracts` (manager.go lines 188–211): walk the
member workers carrying `block_number_to`; a worker whose filtered logs
are empty is skipped, otherwise it is categorized, `block_number_to` is
overwritten with the watermark it returns and a result is pushed.
Returns the updated workers, the final `block_number_to` and the pushed
results in order.  Pushes are modelled on their success path; the failure
path of `pusher.SendMessage` is modelled per worker by
`live_worker_step` (live dispatcher) and `old_worker_step` (catch-up
engine). -/
def apply_round_workers (all_logs : List SpaghettiLog) :
    List EvmWorker → Nat → List EvmWorker × Nat × List PushedResult
  | [], block_number_to => ([], block_number_to, [])
  | w :: ws, block_number_to =>
    let logs := FilterByAddress all_logs w.smartcontract.address
    if logs.isEmpty then
      let rest := apply_round_workers all_logs ws block_number_to
      (w :: rest.1, rest.2)
    else
      let p := w.categorize logs
      let rest := apply_round_workers all_logs ws p.2
      (p.1 :: rest.1, rest.2.1, ⟨p.1.smartcontract, logs⟩ :: rest.2.2)

/-- One full catch-up round body on a successful fetch (manager.go lines
186–213): `block_number_to` starts at `group.block_number + 1` (the start
of the fetched range), the workers are walked by `apply_round_workers`,
and the group's cursor is set to the final `block_number_to`. -/
def old_round (group : OldWorkerGroup) (all_logs : List SpaghettiLog) :
    OldWorkerGroup :=
  let p := apply_round_workers all_logs group.workers
    (group.block_number + 1)
  ⟨p.2.1, p.1⟩

/-- The outcome of one `RemoteLogFilter` call: a transport failure (the
round is retried, manager.go lines 182–185) or a fetched log list. -/
inductive FetchResult where
  | failed : FetchResult
  | fetched : List SpaghettiLog → FetchResult
deriving DecidableEq, Repr

/-- The observable result of a run of the catch-up engine
`categorize_old_smartcontracts` on a finite prefix of fetch outcomes:
whether the group was deleted from the collection, the final group state,
the final live population, and the group cursors recorded at each
promotion instant. -/
structure EngineResult where
  group_deleted : Bool
  final_group : OldWorkerGroup
  current_workers : List EvmWorker
  promotion_cursors : List Nat
deriving DecidableEq, Repr

/-- The loop of `categorize_old_smartcontracts` (manager.go lines
177–223) driven by a list of fetch outcomes, one per iteration.  A failed
fetch leaves the group untouched and retries (line 184 `continue`); a
successful fetch runs `old_round`; when the new cursor reaches the
baseline (`subscribed_earliest_block_number`, line 215) the member
workers are appended to the live population (`add_current_workers`, line
216), the loop breaks and the group is deleted from the collection (line
222), which is recorded as `group_deleted := true`. -/
def categorize_old_run (baseline : Nat) (current : List EvmWorker)
    (group : OldWorkerGroup) : List FetchResult → EngineResult
  | [] => ⟨false, group, current, []⟩
  | FetchResult.failed :: rest =>
    categorize_old_run baseline current group rest
  | FetchResult.fetched logs :: rest =>
    let g2 := old_round group logs
    if baseline ≤ g2.block_number then
      ⟨true, g2, current ++ g2.workers, [g2.block_number]⟩
    else
      categorize_old_run baseline current g2 rest

/-- The per-block worker loop of the live dispatcher
`categorize_current_smartcontracts` (manager.go lines 243–265): for every
worker of the live population, skip it when the block number is at or
below its watermark (line 244); otherwise extract its logs from the block
(line 247), categorize them (line 248) and push a result — the push is
unconditional, it happens even when no log matched the worker.  Returns
the updated workers and the pushed results in order. -/
def categorize_block (block : SpaghettiBlock) :
    List EvmWorker → List EvmWorker × List PushedResult
  | [] => ([], [])
  | w :: ws =>
    if block.block_number ≤ w.smartcontract.categorized_block_number then
      let rest := categorize_block block ws
      (w :: rest.1, rest.2)
    else
      let logs := block.GetForSmartcontract w.smartcontract.address
      let p := w.categorize logs
      let rest := categorize_block block ws
      (p.1 :: rest.1, ⟨p.1.smartcontract, logs⟩ :: rest.2)

/-- The outcome of processing one worker in a push-site loop (the live
dispatcher or the catch-up engine) when the delivery outcome of
`pusher.SendMessage` is taken into account: either the loop continues
with the updated worker, or the process terminates by `panic`
(manager.go lines 263 and 209) carrying the worker state as it is at
that instant. -/
inductive StepOutcome where
  | ok : EvmWorker → StepOutcome
  | fatal : EvmWorker → StepOutcome
deriving DecidableEq, Repr

/-- One worker step of the live dispatcher (manager.go lines 243–264)
with the delivery outcome `send_ok` of `pusher.SendMessage` made
explicit: a skipped worker sends nothing; a processed worker is
categorized first, then the result is pushed, and a failed push panics
(`panic(err)`, line 263) with the watermark already advanced. -/
def live_worker_step (block : SpaghettiBlock) (w : EvmWorker)
    (send_ok : Bool) : StepOutcome :=
  if block.block_number ≤ w.smartcontract.categorized_block_number then
    StepOutcome.ok w
  else
    let logs := block.GetForSmartcontract w.smartcontract.address
    let p := w.categorize logs
    if send_ok then StepOutcome.ok p.1 else StepOutcome.fatal p.1

/-- One worker step of the catch-up engine's Applying round (manager.go
lines 189–211) with the delivery outcome `send_ok` of
`pusher.SendMessage` made explicit: a worker whose filtered logs are
empty is skipped and sends nothing (line 192 `continue`); otherwise the
worker is categorized first (line 194), then the result is pushed, and a
failed push panics (`panic(err)`, line 209) with the watermark already
advanced. -/
def old_worker_step (all_logs : List SpaghettiLog) (w : EvmWorker)
    (send_ok : Bool) : StepOutcome :=
  let logs := FilterByAddress all_logs w.smartcontract.address
  if logs.isEmpty then StepOutcome.ok w
  else
    let p := w.categorize logs
    if send_ok then StepOutcome.ok p.1 else StepOutcome.fatal p.1

/-- The parameters the subscription ingestor extracts from one inbound
broadcast (manager.go lines 340–371): the reply's `network_id`,
`block_number`, `block_timestamp` and `logs`. -/
structure InboundBroadcast where
  network_id : String
  block_number : Nat
  block_timestamp : Nat
  logs : List SpaghettiLog
deriving DecidableEq, Repr

/-- The per-message body of `subscribe` (manager.go lines 340–379) after
a well-formed broadcast was received: a broadcast for another network is
skipped (line 352); a block number below an already-set baseline is
discarded (lines 358–359); an unset baseline (`0`) is set to the block
number (lines 360–362); the block is then pushed onto the queue (line
379). -/
def handle_broadcast (my_network : String) (m : Manager)
    (b : InboundBroadcast) : Manager :=
  if b.network_id = my_network then
    if m.subscribed_earliest_block_number ≠ 0 ∧
        b.block_number < m.subscribed_earliest_block_number then
      m
    else
      let m1 :=
        if m.subscribed_earliest_block_number = 0 then
          { m with subscribed_earliest_block_number := b.block_number }
        else m
      { m1 with subscribed_blocks := m1.subscribed_blocks ++
          [⟨my_network, b.block_number, b.block_timestamp, b.logs⟩] }
  else m

/-- The ingestor applied to a finite sequence of inbound broadcasts. -/
def process_broadcasts (my_network : String) (m : Manager)
    (bs : List InboundBroadcast) : Manager :=
  bs.foldl (handle_broadcast my_network) m

/-- The block number of the first broadcast for this network carrying a
nonzero block number (`0` when there is none): the value the baseline
ends at after processing the sequence from an unset baseline. -/
def first_nonzero_block (my_network : String) :
    List InboundBroadcast → Nat
  | [] => 0
  | b :: rest =>
    if b.network_id = my_network ∧ b.block_number ≠ 0 then b.block_number
    else first_nonzero_block my_network rest

/-- The last member worker of the round to which any logs were applied:
the source of the final `block_number_to` of an Applying round. -/
def last_applied_worker (ws : List EvmWorker)
    (all_logs : List SpaghettiLog) : Option EvmWorker :=
  (ws.filter (fun w =>
    !(FilterByAddress all_logs w.smartcontract.address).isEmpty)).getLast?

/-!
The wire-level message envelope.  The Go code serializes messages with
`key_value` (a thin wrapper over `encoding/json`), a package whose source
is not included in the tree; the JSON value model, its canonical printer
and its parser below are therefore modelled from the spec (§6 wire-level
message envelope: objects with string keys whose values are strings,
numbers, lists, nested objects, booleans and null).  The wire is a list of
characters.
-/

mutual
/-- Modelled from the spec: a JSON value as carried by the dynamic
`map[string,any]` message parameters (§6): string, unsigned number,
boolean, null, array, object. -/
inductive Json where
  | str : String → Json
  | num : Nat → Json
  | bool : Bool → Json
  | null : Json
  | arr : JsonList → Json
  | obj : JsonObj → Json

/-- A list of JSON values (the elements of an array). -/
inductive JsonList where
  | nil : JsonList
  | cons : Json → JsonList → JsonList

/-- An ordered association of string keys to JSON values (the members of
an object). -/
inductive JsonObj where
  | nil : JsonObj
  | cons : String → Json → JsonObj → JsonObj
end

/-- Modelled from the spec: the JSON escape of one character inside a
string literal. -/
def escapeChar (c : Char) : List Char :=
  if c = '"' then ['\\', '"']
  else if c = '\\' then ['\\', '\\']
  else if c = '\n' then ['\\', 'n']
  else if c = '\t' then ['\\', 't']
  else if c = '\r' then ['\\', 'r']
  else [c]

/-- The JSON escape of a character sequence. -/
def escapeList : List Char → List Char
  | [] => []
  | c :: cs => escapeChar c ++ escapeList cs

/-- The printed form of a JSON string literal: quote, escaped body,
quote. -/
def printString (s : String) : List Char :=
  '"' :: (escapeList s.data ++ ['"'])

/-- The decimal digit character for `n < 10`. -/
def digitChar (n : Nat) : Char := Char.ofNat (48 + n)

/-- The decimal digits of a natural number, most significant first. -/
def natToChars (n : Nat) : List Char :=
  if n < 10 then [digitChar n]
  else natToChars (n / 10) ++ [digitChar (n % 10)]
decreasing_by exact Nat.div_lt_self (by omega) (by omega)

mutual
/-- Modelled from the spec: the canonical printed form of a JSON value
(`key_value.ToBytes`, i.e. `json.Marshal`): no whitespace, object members
in order. -/
def printJson : Json → List Char
  | Json.str s => printString s
  | Json.num n => natToChars n
  | Json.bool true => ['t', 'r', 'u', 'e']
  | Json.bool false => ['f', 'a', 'l', 's', 'e']
  | Json.null => ['n', 'u', 'l', 'l']
  | Json.arr JsonList.nil => ['[', ']']
  | Json.arr (JsonList.cons h t) =>
    '[' :: (printElems (JsonList.cons h t) ++ [']'])
  | Json.obj JsonObj.nil => ['{', '}']
  | Json.obj (JsonObj.cons k v t) =>
    '{' :: (printMembers (JsonObj.cons k v t) ++ ['}'])

/-- The printed elements of a nonempty array, comma separated. -/
def printElems : JsonList → List Char
  | JsonList.nil => []
  | JsonList.cons h JsonList.nil => printJson h
  | JsonList.cons h (JsonList.cons h2 t) =>
    printJson h ++ (',' :: printElems (JsonList.cons h2 t))

/-- The printed members of a nonempty object, comma separated, each as
`"key":value`. -/
def printMembers : JsonObj → List Char
  | JsonObj.nil => []
  | JsonObj.cons k v JsonObj.nil => printString k ++ (':' :: printJson v)
  | JsonObj.cons k v (JsonObj.cons k2 v2 t) =>
    (printString k ++ (':' :: printJson v)) ++
      (',' :: printMembers (JsonObj.cons k2 v2 t))
end

/-- Whether a character is a decimal digit. -/
def isDigitChar (c : Char) : Bool :=
  decide (48 ≤ c.toNat) && decide (c.toNat ≤ 57)

/-- The numeric value of a digit character. -/
def digitVal (c : Char) : Nat := c.toNat - 48

/-- Consume a maximal run of decimal digits, accumulating their value. -/
def readDigits (acc : Nat) : List Char → Nat × List Char
  | [] => (acc, [])
  | c :: rest =>
    if isDigitChar c then readDigits (acc * 10 + digitVal c) rest
    else (acc, c :: rest)

/-- The character denoted by a one-letter JSON escape. -/
def unescapeChar (c : Char) : Option Char :=
  if c = '"' then some '"'
  else if c = '\\' then some '\\'
  else if c = 'n' then some '\n'
  else if c = 't' then some '\t'
  else if c = 'r' then some '\r'
  else none

/-- Read a JSON string body up to its closing quote, undoing escapes;
returns the decoded characters and the input after the quote. -/
def readString : List Char → Option (List Char × List Char)
  | [] => none
  | [c] => if c = '"' then some ([], []) else none
  | c :: d :: rest =>
    if c = '"' then some ([], d :: rest)
    else if c = '\\' then
      match unescapeChar d with
      | none => none
      | some u =>
        match readString rest with
        | none => none
        | some p => some (u :: p.1, p.2)
    else
      match readString (d :: rest) with
      | none => none
      | some p => some (c :: p.1, p.2)

/-- Consume an expected literal character sequence. -/
def expectChars : List Char → List Char → Option (List Char)
  | [], input => some input
  | _ :: _, [] => none
  | c :: ls, d :: input => if c = d then expectChars ls input else none

mutual
/-- Modelled from the spec: a parser for the canonical JSON form, fuelled
by a step budget; returns the value and the unconsumed input. -/
def parseVal : Nat → List Char → Option (Json × List Char)
  | 0, _ => none
  | _ + 1, [] => none
  | fuel + 1, c :: rest =>
    if c = '"' then
      match readString rest with
      | none => none
      | some p => some (Json.str ⟨p.1⟩, p.2)
    else if isDigitChar c then
      let p := readDigits 0 (c :: rest)
      some (Json.num p.1, p.2)
    else if c = 't' then
      match expectChars ['r', 'u', 'e'] rest with
      | none => none
      | some r => some (Json.bool true, r)
    else if c = 'f' then
      match expectChars ['a', 'l', 's', 'e'] rest with
      | none => none
      | some r => some (Json.bool false, r)
    else if c = 'n' then
      match expectChars ['u', 'l', 'l'] rest with
      | none => none
      | some r => some (Json.null, r)
    else if c = '[' then
      match rest with
      | [] => none
      | d :: r =>
        if d = ']' then some (Json.arr JsonList.nil, r)
        else
          match parseElems fuel (d :: r) with
          | none => none
          | some p => some (Json.arr p.1, p.2)
    else if c = '{' then
      match rest with
      | [] => none
      | d :: r =>
        if d = '}' then some (Json.obj JsonObj.nil, r)
        else
          match parseMembers fuel (d :: r) with
          | none => none
          | some p => some (Json.obj p.1, p.2)
    else none

/-- Parse the elements of a nonempty array after its opening bracket,
including the closing bracket. -/
def parseElems : Nat → List Char → Option (JsonList × List Char)
  | 0, _ => none
  | fuel + 1, input =>
    match parseVal fuel input with
    | none => none
    | some p =>
      match p.2 with
      | [] => none
      | d :: rest2 =>
        if d = ',' then
          match parseElems fuel rest2 with
          | none => none
          | some q => some (JsonList.cons p.1 q.1, q.2)
        else if d = ']' then some (JsonList.cons p.1 JsonList.nil, rest2)
        else none

/-- Parse the members of a nonempty object after its opening brace,
including the closing brace. -/
def parseMembers : Nat → List Char → Option (JsonObj × List Char)
  | 0, _ => none
  | fuel + 1, input =>
    match input with
    | [] => none
    | c :: rest =>
      if c = '"' then
        match readString rest with
        | none => none
        | some kp =>
          match kp.2 with
          | [] => none
          | d :: rest2 =>
            if d = ':' then
              match parseVal fuel rest2 with
              | none => none
              | some vp =>
                match vp.2 with
                | [] => none
                | e :: rest3 =>
                  if e = ',' then
                    match parseMembers fuel rest3 with
                    | none => none
                    | some mp => some (JsonObj.cons ⟨kp.1⟩ vp.1 mp.1, mp.2)
                  else if e = '}' then
                    some (JsonObj.cons ⟨kp.1⟩ vp.1 JsonObj.nil, rest3)
                  else none
            else none
      else none
end

mutual
/-- An upper bound on the parser fuel consumed by a value. -/
def weightJson : Json → Nat
  | Json.str _ => 1
  | Json.num _ => 1
  | Json.bool _ => 1
  | Json.null => 1
  | Json.arr JsonList.nil => 1
  | Json.arr (JsonList.cons h t) =>
    1 + weightElems (JsonList.cons h t)
  | Json.obj JsonObj.nil => 1
  | Json.obj (JsonObj.cons k v t) =>
    1 + weightMembers (JsonObj.cons k v t)

/-- An upper bound on the parser fuel consumed by array elements. -/
def weightElems : JsonList → Nat
  | JsonList.nil => 0
  | JsonList.cons h t => 1 + weightJson h + weightElems t

/-- An upper bound on the parser fuel consumed by object members. -/
def weightMembers : JsonObj → Nat
  | JsonObj.nil => 0
  | JsonObj.cons _ v t => 1 + weightJson v + weightMembers t
end

/-- Modelled from the spec: `key_value.NewFromString` parses a string
into a key-value map: the whole input must be one JSON object. -/
def NewFromString (input : List Char) : Except String JsonObj :=
  match parseVal (2 * input.length + 2) input with
  | some (Json.obj o, []) => Except.ok o
  | some (Json.obj _, _ :: _) =>
    Except.error "invalid character after top-level value"
  | some _ => Except.error "cannot unmarshal into a key-value map"
  | none => Except.error "invalid json"

/-- The `OK` reply status. -/
def okStatus : String := "OK"

/-- The `fail` reply status. -/
def failStatus : String := "fail"

/-- The JSON key of the reply status field. -/
def statusKey : String := "status"

/-- The JSON key of the reply message field. -/
def messageKey : String := "message"

/-- The JSON key of the reply parameters field. -/
def parametersKey : String := "parameters"

/-- The JSON key of the broadcast topic field. -/
def topicKey : String := "topic"

/-- The JSON key of the broadcast reply field. -/
def replyKey : String := "reply"

/-- A service reply (reply.go lines 19–23): status (`"OK"` or `"fail"`),
message (the error text when the status is `"fail"`), and the dynamic
parameters. -/
structure Reply where
  status : String
  message : String
  parameters : JsonObj

/-- The JSON object a Reply marshals to, fields in declaration order
(status, message, parameters). -/
def Reply.toJsonObj (r : Reply) : JsonObj :=
  JsonObj.cons statusKey (Json.str r.status)
    (JsonObj.cons messageKey (Json.str r.message)
      (JsonObj.cons parametersKey (Json.obj r.parameters) JsonObj.nil))

/-- `Reply.valid_fail` (reply.go lines 43–49): a failure reply must carry
a non-empty message. -/
def Reply.valid_fail (r : Reply) : Except String Unit :=
  if r.status = failStatus ∧ r.message = "" then
    Except.error "failure should not have an empty message"
  else Except.ok ()

/-- `Reply.valid_status` (reply.go lines 33–39): the status must be
either `"OK"` or `"fail"`. -/
def Reply.valid_status (r : Reply) : Except String Unit :=
  if r.status ≠ failStatus ∧ r.status ≠ okStatus then
    Except.error "status is either OK or fail"
  else Except.ok ()

/-- `Reply.ToBytes` (reply.go lines 65–86): validate (`valid_fail` first,
then `valid_status`), then serialize to the wire. -/
def Reply.ToBytes (r : Reply) : Except String (List Char) :=
  match r.valid_fail with
  | Except.error e => Except.error e
  | Except.ok _ =>
    match r.valid_status with
    | Except.error e => Except.error e
    | Except.ok _ => Except.ok (printJson (Json.obj r.toJsonObj))

/-- `Reply.ToString` (reply.go lines 55–62): the wire bytes as a
character sequence. -/
def Reply.ToString (r : Reply) : Except String (List Char) :=
  r.ToBytes

/-- Lookup of a key in a JSON object (the printed objects of this
development never repeat a key, so first match suffices). -/
def JsonObj.lookup : JsonObj → String → Option Json
  | JsonObj.nil, _ => none
  | JsonObj.cons k v t, key => if k = key then some v else t.lookup key

/-- Modelled from the spec: `key_value.GetString` returns the string at
the key and errors when the key is absent or not a string. -/
def JsonObj.GetString (o : JsonObj) (key : String) :
    Except String String :=
  match o.lookup key with
  | some (Json.str s) => Except.ok s
  | _ => Except.error "key is missing or is not a string"

/-- Modelled from the spec: `key_value.GetKeyValue` returns the nested
object at the key and errors when the key is absent or not an object. -/
def JsonObj.GetKeyValue (o : JsonObj) (key : String) :
    Except String JsonObj :=
  match o.lookup key with
  | some (Json.obj m) => Except.ok m
  | _ => Except.error "key is missing or is not a key-value map"

/-- Modelled from the spec: unmarshalling a JSON object into a string
struct field (`dat.ToInterface`): an absent key leaves the zero value, a
non-string value is a type error. -/
def readStringField (dat : JsonObj) (key : String) :
    Except String String :=
  match dat.lookup key with
  | none => Except.ok ""
  | some (Json.str s) => Except.ok s
  | some _ => Except.error "cannot unmarshal value into a string field"

/-- Modelled from the spec: unmarshalling a JSON object into a map struct
field (`dat.ToInterface`): an absent key or JSON null leaves the empty
map, a non-object value is a type error. -/
def readObjField (dat : JsonObj) (key : String) :
    Except String JsonObj :=
  match dat.lookup key with
  | none => Except.ok JsonObj.nil
  | some (Json.obj o) => Except.ok o
  | some Json.null => Except.ok JsonObj.nil
  | some _ => Except.error "cannot unmarshal value into a map field"

/-- `ParseJsonReply` (reply.go lines 105–121): unmarshal the key-value
into a Reply (absent fields default, wrongly typed fields error), then
validate by a dry `ToBytes` run. -/
def ParseJsonReply (dat : JsonObj) : Except String Reply :=
  match readStringField dat statusKey with
  | Except.error e => Except.error e
  | Except.ok status =>
    match readStringField dat messageKey with
    | Except.error e => Except.error e
    | Except.ok msg =>
      match readObjField dat parametersKey with
      | Except.error e => Except.error e
      | Except.ok params =>
        let reply : Reply := ⟨status, msg, params⟩
        match reply.ToBytes with
        | Except.error e => Except.error e
        | Except.ok _ => Except.ok reply

/-- `ParseReply` (reply.go lines 89–102): parse the wire string as a
key-value map and unmarshal it into a Reply. -/
def ParseReply (msg : List Char) : Except String Reply :=
  match NewFromString msg with
  | Except.error e => Except.error e
  | Except.ok dat => ParseJsonReply dat

/-- A broadcast (broadcast.go lines 31–36): the wrapped reply and the
topic used for feed filtering. -/
structure Broadcast where
  reply : Reply
  topic : String

/-- The JSON object a Broadcast marshals to, fields in declaration order
(reply, topic). -/
def Broadcast.toJsonObj (b : Broadcast) : JsonObj :=
  JsonObj.cons replyKey (Json.obj b.reply.toJsonObj)
    (JsonObj.cons topicKey (Json.str b.topic) JsonObj.nil)

/-- `Broadcast.ToBytes` (broadcast.go lines 50–59): serialize the whole
broadcast; serialization failures are swallowed by the Go code and cannot
occur in this model. -/
def Broadcast.ToBytes (b : Broadcast) : List Char :=
  printJson (Json.obj b.toJsonObj)

/-- The body-processing part of `ParseBroadcast` (broadcast.go lines
72–92) applied to the wire text from the first brace on: parse it as a
key-value map, read the topic string and the nested reply object, and
unmarshal the reply. -/
def parse_broadcast_body (body : List Char) : Except String Broadcast :=
  match NewFromString body with
  | Except.error e => Except.error e
  | Except.ok dat =>
    match dat.GetString topicKey with
    | Except.error e => Except.error e
    | Except.ok topic =>
      match dat.GetKeyValue replyKey with
      | Except.error e => Except.error e
      | Except.ok raw_reply =>
        match ParseJsonReply raw_reply with
        | Except.error e => Except.error e
        | Except.ok reply => Except.ok ⟨reply, topic⟩

/-- `ParseBroadcast` (broadcast.go lines 62–93): find the first brace of
the wire string (`strings.Index`), error when there is none, and process
the remainder of the string from that brace on. -/
def ParseBroadcast (msg : List Char) : Except String Broadcast :=
  match msg.dropWhile (fun c => c ≠ '{') with
  | [] =>
    Except.error "invalid broadcast message, no topic and reply boundary"
  | body => parse_broadcast_body body

/-- Whether an `Except` computation succeeded. -/
def isOkE {ε α : Type} : Except ε α → Bool
  | Except.ok _ => true
  | Except.error _ => false

/-! Helper lemmas. -/

/-- The watermark a worker returns from `categorize` is at least the
watermark it starts from, and it is exactly the watermark stored in the
updated worker. -/
theorem categorize_watermark (w : EvmWorker) (logs : List SpaghettiLog) :
    w.smartcontract.categorized_block_number ≤ (w.categorize logs).2 ∧
    (w.categorize logs).1.smartcontract.categorized_block_number =
      (w.categorize logs).2 := by
  refine ⟨?_, rfl⟩
  show w.smartcontract.categorized_block_number ≤
    logs.foldl (fun acc l => Nat.max acc l.block_number)
      w.smartcontract.categorized_block_number
  generalize w.smartcontract.categorized_block_number = a
  induction logs generalizing a with
  | nil => exact Nat.le_refl a
  | cons l ls ih =>
    exact Nat.le_trans (Nat.le_max_left a l.block_number)
      (ih (Nat.max a l.block_number))

/-- The worker walk of an Applying round: the workers are updated
pointwise from their own filtered logs, and the final `block_number_to`
is the watermark returned by the last worker that had logs (the starting
value when none had). -/
theorem apply_round_workers_spec (all_logs : List SpaghettiLog) :
    ∀ (ws : List EvmWorker) (start : Nat),
      (apply_round_workers all_logs ws start).1 = ws.map (fun w =>
        if (FilterByAddress all_logs w.smartcontract.address).isEmpty
        then w
        else (w.categorize
          (FilterByAddress all_logs w.smartcontract.address)).1) ∧
      (apply_round_workers all_logs ws start).2.1 =
        (match last_applied_worker ws all_logs with
         | none => start
         | some w => (w.categorize
             (FilterByAddress all_logs w.smartcontract.address)).2) := by
  intro ws
  induction ws with
  | nil => intro start; exact ⟨rfl, rfl⟩
  | cons w ws ih =>
    intro start
    by_cases hw : FilterByAddress all_logs w.smartcontract.address = []
    · have h1 := (ih start).1
      have h2 := (ih start).2
      have hlast : last_applied_worker (w :: ws) all_logs =
          last_applied_worker ws all_logs := by
        simp [last_applied_worker, List.filter, hw]
      constructor
      · simp [apply_round_workers, hw, h1]
      · simp only [apply_round_workers, hw, List.isEmpty_nil, if_pos]
        rw [hlast]
        exact h2
    · have hwe : (FilterByAddress all_logs
          w.smartcontract.address).isEmpty = false := by
        simp [hw]
      constructor
      · have h1 := (ih ((w.categorize
          (FilterByAddress all_logs w.smartcontract.address)).2)).1
        simp [apply_round_workers, hwe, hw, h1]
      · have h2 := (ih ((w.categorize
          (FilterByAddress all_logs w.smartcontract.address)).2)).2
        cases hfw : List.filter (fun x =>
            !(FilterByAddress all_logs x.smartcontract.address).isEmpty)
              ws with
        | nil =>
          have hlast : last_applied_worker (w :: ws) all_logs = some w := by
            simp [last_applied_worker, List.filter, hwe, hfw]
          have hlast2 : last_applied_worker ws all_logs = none := by
            simp [last_applied_worker, hfw]
          rw [hlast2] at h2
          simp only [apply_round_workers, hwe, Bool.false_eq_true,
            if_neg, hlast]
          exact h2
        | cons y l =>
          have hne : last_applied_worker ws all_logs ≠ none := by
            simp [last_applied_worker, hfw, List.getLast?_eq_none_iff]
          cases hws : last_applied_worker ws all_logs with
          | none => exact absurd hws hne
          | some w2 =>
            have hlast : last_applied_worker (w :: ws) all_logs =
                some w2 := by
              have hkeep : (List.filter (fun x =>
                  !(FilterByAddress all_logs
                    x.smartcontract.address).isEmpty) (w :: ws)) =
                  w :: (y :: l) := by
                simp [List.filter, hwe, hfw]
              have := hws
              simp only [last_applied_worker, hfw] at this
              simp only [last_applied_worker, hkeep,
                List.getLast?_cons_cons]
              exact this
            rw [hws] at h2
            simp only [apply_round_workers, hwe, Bool.false_eq_true,
              if_neg, hlast]
            exact h2

/-- Folding group address lists out of a fold into a flat list. -/
theorem foldl_group_addresses :
    ∀ (l : List OldWorkerGroup) (init : List String),
      l.foldl (fun acc group => acc ++ workerAddresses group.workers)
        init =
        init ++ (l.map (fun group => workerAddresses group.workers)).flatten := by
  intro l
  induction l with
  | nil => intro init; simp
  | cons g l ih =>
    intro init
    simp [List.foldl, ih (init ++ workerAddresses g.workers)]

/-- A broadcast never changes an already-set (nonzero) baseline. -/
theorem handle_broadcast_baseline (net : String) (m : Manager)
    (b : InboundBroadcast)
    (h : m.subscribed_earliest_block_number ≠ 0) :
    (handle_broadcast net m b).subscribed_earliest_block_number =
      m.subscribed_earliest_block_number := by
  unfold handle_broadcast
  split
  · split
    · rfl
    · simp [h]
  · rfl

/-- A broadcast sequence never changes an already-set baseline. -/
theorem process_broadcasts_baseline (net : String) :
    ∀ (bs : List InboundBroadcast) (m : Manager),
      m.subscribed_earliest_block_number ≠ 0 →
      (process_broadcasts net m bs).subscribed_earliest_block_number =
        m.subscribed_earliest_block_number := by
  intro bs
  induction bs with
  | nil => intro m h; rfl
  | cons b rest ih =>
    intro m h
    have h1 := handle_broadcast_baseline net m b h
    have h2 : (handle_broadcast net m b).subscribed_earliest_block_number
        ≠ 0 := by rw [h1]; exact h
    show (process_broadcasts net (handle_broadcast net m b) rest).subscribed_earliest_block_number = _
    rw [ih (handle_broadcast net m b) h2, h1]

/-- From an unset baseline, processing a broadcast sequence leaves the
baseline at the block number of the first matching broadcast with a
nonzero block number. -/
theorem process_broadcasts_first_nonzero (net : String) :
    ∀ (bs : List InboundBroadcast) (m : Manager),
      m.subscribed_earliest_block_number = 0 →
      (process_broadcasts net m bs).subscribed_earliest_block_number =
        first_nonzero_block net bs := by
  intro bs
  induction bs with
  | nil => intro m h; exact h
  | cons b rest ih =>
    intro m h
    show (process_broadcasts net (handle_broadcast net m b) rest).subscribed_earliest_block_number = _
    by_cases hn : b.network_id = net
    · by_cases hb : b.block_number = 0
      · have hz : (handle_broadcast net m b).subscribed_earliest_block_number = 0 := by
          unfold handle_broadcast
          simp [hn, h, hb]
        rw [ih _ hz]
        simp [first_nonzero_block, hn, hb]
      · have hz : (handle_broadcast net m b).subscribed_earliest_block_number = b.block_number := by
          unfold handle_broadcast
          simp [hn, h]
        rw [process_broadcasts_baseline net rest _ (by rw [hz]; exact hb), hz]
        simp [first_nonzero_block, hn, hb]
    · have hz : handle_broadcast net m b = m := by
        unfold handle_broadcast
        simp [hn]
      rw [hz, ih m h]
      simp [first_nonzero_block, hn]

/-! Claim theorems. -/

/-- Claim C1 (corrected): within one engine run a Worker Group is
promoted at most once — and exactly once when the run ends by deleting
the group: the promotion round's cursor is at least the live baseline,
every member worker is appended to the live population, the group is
removed and the engine stops (no later fetch outcome is consumed).  The
original claim's bound "the cursor never exceeds the live baseline at
promotion" is false — the fetched range is unbounded above, so the
cursor can land strictly beyond the baseline (see the counterexample). -/
theorem group_promotion_run (baseline : Nat) (current : List EvmWorker)
    (group : OldWorkerGroup) (fetches : List FetchResult) :
    (categorize_old_run baseline current group
      fetches).promotion_cursors.length ≤ 1 ∧
    ((categorize_old_run baseline current group
      fetches).group_deleted = true ↔
      (categorize_old_run baseline current group
        fetches).promotion_cursors ≠ []) ∧
    (∀ c ∈ (categorize_old_run baseline current group
      fetches).promotion_cursors, baseline ≤ c) ∧
    ((categorize_old_run baseline current group
      fetches).group_deleted = true →
      (categorize_old_run baseline current group
        fetches).current_workers =
        current ++ (categorize_old_run baseline current group
          fetches).final_group.workers) ∧
    ((categorize_old_run baseline current group
      fetches).group_deleted = false →
      (categorize_old_run baseline current group
        fetches).current_workers = current) := by
  induction fetches generalizing group with
  | nil => simp [categorize_old_run]
  | cons f rest ih =>
    cases f with
    | failed => simpa [categorize_old_run] using ih group
    | fetched logs =>
      by_cases h : baseline ≤ (old_round group logs).block_number
      · simp [categorize_old_run, h]
      · simpa [categorize_old_run, h] using ih (old_round group logs)

/-- Witness for C1: a concrete promoting run — the promotion cursor is
at least the baseline and the member workers land in the live
population. -/
theorem group_promotion_run_witness :
    150 ≤ 200 ∧
    (categorize_old_run 150 [] ⟨100, [⟨⟨"a", 100⟩⟩]⟩
      [FetchResult.fetched [⟨"a", 200⟩]]).current_workers =
      [] ++ (categorize_old_run 150 [] ⟨100, [⟨⟨"a", 100⟩⟩]⟩
        [FetchResult.fetched [⟨"a", 200⟩]]).final_group.workers := by
  have h := group_promotion_run 150 [] ⟨100, [⟨⟨"a", 100⟩⟩]⟩
    [FetchResult.fetched [⟨"a", 200⟩]]
  exact ⟨h.2.2.1 200 (by decide), h.2.2.2.1 (by decide)⟩

/-- Counterexample to C1 as stated: with baseline 150 and a fetch
returning a log at block 200, the group promotes with cursor 200, which
exceeds the baseline — refuting "at the instant of promotion the group's
cursor never exceeds the live baseline". -/
theorem group_promotion_run_counterexample :
    (categorize_old_run 150 [] ⟨100, [⟨⟨"a", 100⟩⟩]⟩
      [FetchResult.fetched [⟨"a", 200⟩]]).promotion_cursors = [200] ∧
    ¬ (200 ≤ 150) := ⟨by decide, by decide⟩

/-- Claim C2 (corrected): in an Applying round each member worker is
updated from its own filtered logs, and the cursor is set to the
watermark returned by the **last** member worker (in group order) to
which any logs were applied this round — not the maximum across members;
when no member had logs the cursor does not stay put: it becomes the old
cursor + 1 (the start of the fetched range). -/
theorem old_round_cursor (group : OldWorkerGroup)
    (all_logs : List SpaghettiLog) :
    (old_round group all_logs).workers = group.workers.map (fun w =>
      if (FilterByAddress all_logs w.smartcontract.address).isEmpty
      then w
      else (w.categorize
        (FilterByAddress all_logs w.smartcontract.address)).1) ∧
    (old_round group all_logs).block_number =
      (match last_applied_worker group.workers all_logs with
       | none => group.block_number + 1
       | some w => (w.categorize
           (FilterByAddress all_logs w.smartcontract.address)).2) := by
  have h := apply_round_workers_spec all_logs group.workers
    (group.block_number + 1)
  exact ⟨h.1, h.2⟩

/-- Counterexample to C2 as stated: two members reach watermarks 10 and
5 in one round; the cursor becomes 5 (the last member's watermark), not
the maximum 10.  And with nothing fetched the cursor moves from 100 to
101 instead of staying unchanged. -/
theorem old_round_cursor_counterexample :
    (old_round ⟨100, [⟨⟨"a", 0⟩⟩, ⟨⟨"b", 0⟩⟩]⟩
      [⟨"a", 10⟩, ⟨"b", 5⟩]).block_number = 5 ∧
    ((old_round ⟨100, [⟨⟨"a", 0⟩⟩, ⟨⟨"b", 0⟩⟩]⟩
      [⟨"a", 10⟩, ⟨"b", 5⟩]).workers.map
        (fun w => w.smartcontract.categorized_block_number)) = [10, 5] ∧
    ¬ ((old_round ⟨100, [⟨⟨"a", 0⟩⟩, ⟨⟨"b", 0⟩⟩]⟩
      [⟨"a", 10⟩, ⟨"b", 5⟩]).block_number = Nat.max 10 5) ∧
    (old_round ⟨100, [⟨⟨"a", 0⟩⟩]⟩ []).block_number = 101 ∧
    ¬ ((old_round ⟨100, [⟨⟨"a", 0⟩⟩]⟩ []).block_number = 100) :=
  ⟨by decide, by decide, by decide, by decide, by decide⟩

/-- Claim C3 (corrected): for every dequeued block and every live
worker, the worker is skipped exactly when the block number is at or
below its watermark; otherwise its logs are extracted from the block and
applied — but a result is published for **every** non-skipped worker,
even when no log was extracted, so "publishes iff at least one log was
applied" fails (see the counterexample). -/
theorem dispatch_block_results (block : SpaghettiBlock)
    (ws : List EvmWorker) :
    (categorize_block block ws).1 = ws.map (fun w =>
      if block.block_number ≤ w.smartcontract.categorized_block_number
      then w
      else (w.categorize
        (block.GetForSmartcontract w.smartcontract.address)).1) ∧
    (categorize_block block ws).2 = (ws.filter (fun w =>
      ! decide (block.block_number ≤
        w.smartcontract.categorized_block_number))).map (fun w =>
      ⟨(w.categorize (block.GetForSmartcontract
          w.smartcontract.address)).1.smartcontract,
        block.GetForSmartcontract w.smartcontract.address⟩) := by
  induction ws with
  | nil => exact ⟨rfl, rfl⟩
  | cons w ws ih =>
    by_cases h : block.block_number ≤ w.smartcontract.categorized_block_number
    · exact ⟨by simp [categorize_block, h, ih.1],
        by simp [categorize_block, h, List.filter_cons, ih.2]⟩
    · exact ⟨by simp [categorize_block, h, ih.1],
        by simp [categorize_block, h, List.filter_cons, ih.2]⟩

/-- Counterexample to C3 as stated: a block past the worker's watermark
carrying no logs for the worker's address still produces a published
result (with an empty log list), refuting "publishes a result if and
only if at least one log was applied". -/
theorem dispatch_block_results_counterexample :
    ¬ (((categorize_block ⟨"n", 10, 0, [⟨"b", 10⟩]⟩
          [⟨⟨"a", 5⟩⟩]).2 ≠ []) ↔
        ((⟨"n", 10, 0, [⟨"b", 10⟩]⟩ : SpaghettiBlock).GetForSmartcontract
          ("a") ≠ [])) ∧
    (categorize_block ⟨"n", 10, 0, [⟨"b", 10⟩]⟩ [⟨⟨"a", 5⟩⟩]).2 =
      [⟨⟨"a", 5⟩, []⟩] := ⟨by decide, by decide⟩

/-- Claim C4 (corrected): with the baseline set, an inbound broadcast for
this network is discarded exactly when its block number is strictly below
the baseline; a block number at or above the baseline — including one
equal to it — is pushed onto the block queue.  The original "less than or
equal is discarded" (block 150 discarded at baseline 150) is false: the
code discards only `block_number < baseline` (see the counterexample). -/
theorem ingest_discard_rule (net : String) (m : Manager)
    (b : InboundBroadcast)
    (hbase : m.subscribed_earliest_block_number ≠ 0)
    (hnet : b.network_id = net) :
    (b.block_number < m.subscribed_earliest_block_number →
      handle_broadcast net m b = m) ∧
    (m.subscribed_earliest_block_number ≤ b.block_number →
      handle_broadcast net m b = { m with
        subscribed_blocks := m.subscribed_blocks ++
          [⟨net, b.block_number, b.block_timestamp, b.logs⟩] }) := by
  constructor
  · intro hlt
    unfold handle_broadcast
    rw [if_pos hnet, if_pos ⟨hbase, hlt⟩]
  · intro hle
    unfold handle_broadcast
    rw [if_pos hnet, if_neg (fun hc => (Nat.not_lt.mpr hle) hc.2),
      if_neg hbase]

/-- Witness for C4: at baseline 150, block 151 is enqueued and block 149
is discarded. -/
theorem ingest_discard_rule_witness :
    handle_broadcast ("n") ⟨[], [], 150, []⟩ ⟨"n", 151, 7, []⟩ =
      { (⟨[], [], 150, []⟩ : Manager) with
        subscribed_blocks := [] ++ [⟨"n", 151, 7, []⟩] } ∧
    handle_broadcast ("n") ⟨[], [], 150, []⟩ ⟨"n", 149, 7, []⟩ =
      ⟨[], [], 150, []⟩ := by
  have h1 := ingest_discard_rule ("n") ⟨[], [], 150, []⟩
    ⟨"n", 151, 7, []⟩ (by decide) rfl
  have h2 := ingest_discard_rule ("n") ⟨[], [], 150, []⟩
    ⟨"n", 149, 7, []⟩ (by decide) rfl
  exact ⟨h1.2 (by decide), h2.1 (by decide)⟩

/-- Counterexample to C4 as stated: at baseline 150, a re-delivered
block 150 is **enqueued**, not discarded. -/
theorem ingest_discard_rule_counterexample :
    (handle_broadcast ("n") ⟨[], [], 150, []⟩
      ⟨"n", 150, 7, []⟩).subscribed_blocks = [⟨"n", 150, 7, []⟩] ∧
    ¬ ((handle_broadcast ("n") ⟨[], [], 150, []⟩
      ⟨"n", 150, 7, []⟩).subscribed_blocks = []) :=
  ⟨by decide, by decide⟩

/-- Claim C5 (corrected): a Fetching round requests historical logs
starting at `cursor + 1`, the block right after the group's stored
cursor, not at the cursor itself; in particular a group created for a
worker with start block 100 fetches from block 101 onward. -/
theorem fetch_range_start (m : Manager) (group : OldWorkerGroup) :
    (old_round_request m group).block_number_from =
      group.block_number + 1 := rfl

/-- Counterexample to C5 as stated: the group created for a worker with
start block 100 has cursor 100, and its fetch request starts at 101 —
not at the cursor 100. -/
theorem fetch_range_start_counterexample :
    (old_round_request
      ⟨[NewGroup (EarliestBlockNumber [⟨⟨"a", 100⟩⟩]) [⟨⟨"a", 100⟩⟩]],
        [], 150, []⟩
      (NewGroup (EarliestBlockNumber [⟨⟨"a", 100⟩⟩])
        [⟨⟨"a", 100⟩⟩])).block_number_from = 101 ∧
    (NewGroup (EarliestBlockNumber [⟨⟨"a", 100⟩⟩])
      [⟨⟨"a", 100⟩⟩]).block_number = 100 ∧
    ¬ ((old_round_request
      ⟨[NewGroup (EarliestBlockNumber [⟨⟨"a", 100⟩⟩]) [⟨⟨"a", 100⟩⟩]],
        [], 150, []⟩
      (NewGroup (EarliestBlockNumber [⟨⟨"a", 100⟩⟩])
        [⟨⟨"a", 100⟩⟩])).block_number_from = 100) :=
  ⟨by decide, by decide, by decide⟩

/-- Claim C6 (corrected): the catch-up fetch request for a group does
not restrict itself to the group's member addresses — it carries the
addresses of **every** worker the manager knows: every member of every
group and every worker of the live population. -/
theorem fetch_addresses_manager_wide (m : Manager)
    (target g : OldWorkerGroup) (w : EvmWorker)
    (hg : g ∈ m.old_categorizers) (hw : w ∈ g.workers) :
    w.smartcontract.address ∈ (old_round_request m target).addresses ∧
    ∀ w2 ∈ m.current_workers,
      w2.smartcontract.address ∈ (old_round_request m target).addresses := by
  constructor
  · show w.smartcontract.address ∈ m.GetSmartcontractAddresses
    unfold Manager.GetSmartcontractAddresses
    rw [foldl_group_addresses]
    simp only [List.nil_append, List.mem_append]
    left
    rw [List.mem_flatten]
    refine ⟨workerAddresses g.workers, List.mem_map_of_mem _ hg, ?_⟩
    exact List.mem_map_of_mem _ hw
  · intro w2 hw2
    show w2.smartcontract.address ∈ m.GetSmartcontractAddresses
    unfold Manager.GetSmartcontractAddresses
    rw [foldl_group_addresses]
    simp only [List.nil_append, List.mem_append]
    right
    exact List.mem_map_of_mem _ hw2

/-- Witness for C6: in a manager with groups for addresses "a" and "b"
and live worker "c", the request issued for the "a" group contains the
"b" group's address and the live worker's address. -/
theorem fetch_addresses_manager_wide_witness :
    (⟨⟨"b", 7⟩⟩ : EvmWorker).smartcontract.address ∈
      (old_round_request
        ⟨[⟨5, [⟨⟨"a", 5⟩⟩]⟩, ⟨7, [⟨⟨"b", 7⟩⟩]⟩], [⟨⟨"c", 0⟩⟩], 150, []⟩
        ⟨5, [⟨⟨"a", 5⟩⟩]⟩).addresses ∧
    (⟨⟨"c", 0⟩⟩ : EvmWorker).smartcontract.address ∈
      (old_round_request
        ⟨[⟨5, [⟨⟨"a", 5⟩⟩]⟩, ⟨7, [⟨⟨"b", 7⟩⟩]⟩], [⟨⟨"c", 0⟩⟩], 150, []⟩
        ⟨5, [⟨⟨"a", 5⟩⟩]⟩).addresses := by
  have h := fetch_addresses_manager_wide
    ⟨[⟨5, [⟨⟨"a", 5⟩⟩]⟩, ⟨7, [⟨⟨"b", 7⟩⟩]⟩], [⟨⟨"c", 0⟩⟩], 150, []⟩
    ⟨5, [⟨⟨"a", 5⟩⟩]⟩ ⟨7, [⟨⟨"b", 7⟩⟩]⟩ ⟨⟨"b", 7⟩⟩
    (by decide) (by decide)
  exact ⟨h.1, h.2 ⟨⟨"c", 0⟩⟩ (by decide)⟩

/-- Counterexample to C6 as stated: the request for the "a" group lists
the addresses of all three workers, not exactly the group's member
address list. -/
theorem fetch_addresses_manager_wide_counterexample :
    (old_round_request
      ⟨[⟨5, [⟨⟨"a", 5⟩⟩]⟩, ⟨7, [⟨⟨"b", 7⟩⟩]⟩], [⟨⟨"c", 0⟩⟩], 150, []⟩
      ⟨5, [⟨⟨"a", 5⟩⟩]⟩).addresses = ["a", "b", "c"] ∧
    ¬ ((old_round_request
      ⟨[⟨5, [⟨⟨"a", 5⟩⟩]⟩, ⟨7, [⟨⟨"b", 7⟩⟩]⟩], [⟨⟨"c", 0⟩⟩], 150, []⟩
      ⟨5, [⟨⟨"a", 5⟩⟩]⟩).addresses = workerAddresses [⟨⟨"a", 5⟩⟩]) :=
  ⟨by decide, by decide⟩

/-- Claim C7 (corrected): once the baseline holds a nonzero value, no
later broadcast changes it; from an unset baseline, processing a
broadcast sequence leaves the baseline at the block number of the first
broadcast for this network carrying a **nonzero** block number.  The
original claim fails when the first observed block is block 0: the code
uses 0 as the "unset" sentinel, so such a block leaves the baseline
unset and a later block re-sets it (see the counterexample). -/
theorem baseline_set_once_nonzero (net : String) (m : Manager)
    (b : InboundBroadcast) (bs : List InboundBroadcast) :
    (m.subscribed_earliest_block_number ≠ 0 →
      (handle_broadcast net m b).subscribed_earliest_block_number =
        m.subscribed_earliest_block_number) ∧
    (m.subscribed_earliest_block_number = 0 →
      (process_broadcasts net m bs).subscribed_earliest_block_number =
        first_nonzero_block net bs) :=
  ⟨handle_broadcast_baseline net m b,
   process_broadcasts_first_nonzero net bs m⟩

/-- Witness for C7: a set baseline of 150 survives a broadcast, and an
unset baseline ends at the first nonzero block number of the feed. -/
theorem baseline_set_once_nonzero_witness :
    (handle_broadcast ("n") ⟨[], [], 150, []⟩
      ⟨"n", 9, 0, []⟩).subscribed_earliest_block_number = 150 ∧
    (process_broadcasts ("n") ⟨[], [], 0, []⟩
      [⟨"n", 0, 1, []⟩, ⟨"n", 7, 2, []⟩]).subscribed_earliest_block_number =
      first_nonzero_block ("n") [⟨"n", 0, 1, []⟩, ⟨"n", 7, 2, []⟩] := by
  have h1 := baseline_set_once_nonzero ("n") ⟨[], [], 150, []⟩
    ⟨"n", 9, 0, []⟩ []
  have h2 := baseline_set_once_nonzero ("n") ⟨[], [], 0, []⟩
    ⟨"n", 9, 0, []⟩ [⟨"n", 0, 1, []⟩, ⟨"n", 7, 2, []⟩]
  exact ⟨h1.1 (by decide), h2.2 rfl⟩

/-- Counterexample to C7 as stated: the first observed block has number
0, the baseline stays 0 (unset), and the second broadcast moves it to 7
— so the baseline is neither set to the first block's number once and
for all nor unchanged under subsequent broadcasts. -/
theorem baseline_set_once_nonzero_counterexample :
    (handle_broadcast ("n") ⟨[], [], 0, []⟩
      ⟨"n", 0, 1, []⟩).subscribed_earliest_block_number = 0 ∧
    (handle_broadcast ("n") (handle_broadcast ("n") ⟨[], [], 0, []⟩
      ⟨"n", 0, 1, []⟩) ⟨"n", 7, 2, []⟩).subscribed_earliest_block_number
      = 7 ∧
    ¬ ((7 : Nat) = 0) := ⟨by decide, by decide, by decide⟩

/-- Claim C8 (corrected): a failed delivery of a published result is
**fatal**: both push sites — the live dispatcher (manager.go lines
261–264) and the catch-up engine (lines 207–210) — call `panic(err)` on
a send error, so categorization terminates rather than continuing.  At
the instant of the panic the publishing worker's watermark does keep
its advanced value (categorize runs before the push), and a successful
delivery continues with the same updated worker.  `w` is a live worker
not yet past `block`; `w2` is a catch-up group member with logs in this
round's fetch. -/
theorem publish_failure_panics (block : SpaghettiBlock) (w : EvmWorker)
    (all_logs : List SpaghettiLog) (w2 : EvmWorker)
    (h : w.smartcontract.categorized_block_number < block.block_number)
    (h2 : (FilterByAddress all_logs
      w2.smartcontract.address).isEmpty = false) :
    live_worker_step block w false =
      StepOutcome.fatal ((w.categorize
        (block.GetForSmartcontract w.smartcontract.address)).1) ∧
    live_worker_step block w true =
      StepOutcome.ok ((w.categorize
        (block.GetForSmartcontract w.smartcontract.address)).1) ∧
    w.smartcontract.categorized_block_number ≤
      ((w.categorize (block.GetForSmartcontract
        w.smartcontract.address)).1).smartcontract.categorized_block_number ∧
    old_worker_step all_logs w2 false =
      StepOutcome.fatal ((w2.categorize
        (FilterByAddress all_logs w2.smartcontract.address)).1) ∧
    old_worker_step all_logs w2 true =
      StepOutcome.ok ((w2.categorize
        (FilterByAddress all_logs w2.smartcontract.address)).1) ∧
    w2.smartcontract.categorized_block_number ≤
      ((w2.categorize (FilterByAddress all_logs
        w2.smartcontract.address)).1).smartcontract.categorized_block_number := by
  have hn : ¬ (block.block_number ≤
      w.smartcontract.categorized_block_number) := Nat.not_le.mpr h
  have hc := categorize_watermark w
    (block.GetForSmartcontract w.smartcontract.address)
  have hc2 := categorize_watermark w2
    (FilterByAddress all_logs w2.smartcontract.address)
  refine ⟨?_, ?_, ?_, ?_, ?_, ?_⟩
  · simp [live_worker_step, hn]
  · simp [live_worker_step, hn]
  · rw [hc.2]; exact hc.1
  · simp [old_worker_step, h2]
  · simp [old_worker_step, h2]
  · rw [hc2.2]; exact hc2.1

/-- Witness for C8: a concrete failed delivery panics with the worker
carrying its advanced watermark, at the live-dispatcher push site and at
the catch-up engine push site. -/
theorem publish_failure_panics_witness :
    live_worker_step ⟨"n", 10, 0, [⟨"a", 10⟩]⟩ ⟨⟨"a", 5⟩⟩ false =
      StepOutcome.fatal (((⟨⟨"a", 5⟩⟩ : EvmWorker).categorize
        ((⟨"n", 10, 0, [⟨"a", 10⟩]⟩ : SpaghettiBlock).GetForSmartcontract
          ("a"))).1) ∧
    old_worker_step [⟨"b", 120⟩] ⟨⟨"b", 100⟩⟩ false =
      StepOutcome.fatal (((⟨⟨"b", 100⟩⟩ : EvmWorker).categorize
        (FilterByAddress [⟨"b", 120⟩] ("b"))).1) := by
  have hh := publish_failure_panics ⟨"n", 10, 0, [⟨"a", 10⟩]⟩
    ⟨⟨"a", 5⟩⟩ [⟨"b", 120⟩] ⟨⟨"b", 100⟩⟩ (by decide) (by decide)
  exact ⟨hh.1, hh.2.2.2.1⟩

/-- Counterexample to C8 as stated: on a failed delivery the worker
step is a panic (process termination), not a continuation — at both
push sites — refuting "the failure is never escalated to process
termination". -/
theorem publish_failure_panics_counterexample :
    live_worker_step ⟨"n", 10, 0, [⟨"a", 10⟩]⟩ ⟨⟨"a", 5⟩⟩ false =
      StepOutcome.fatal ⟨⟨"a", 10⟩⟩ ∧
    ¬ (live_worker_step ⟨"n", 10, 0, [⟨"a", 10⟩]⟩ ⟨⟨"a", 5⟩⟩ false =
        StepOutcome.ok ⟨⟨"a", 10⟩⟩) ∧
    old_worker_step [⟨"b", 120⟩] ⟨⟨"b", 100⟩⟩ false =
      StepOutcome.fatal ⟨⟨"b", 120⟩⟩ ∧
    ¬ (old_worker_step [⟨"b", 120⟩] ⟨⟨"b", 100⟩⟩ false =
        StepOutcome.ok ⟨⟨"b", 120⟩⟩) :=
  ⟨by decide, by decide, by decide, by decide⟩

/-! JSON codec lemmas. -/

/-- Consuming a literal prefix succeeds and leaves the remainder. -/
theorem expectChars_append :
    ∀ (lit rest : List Char), expectChars lit (lit ++ rest) = some rest := by
  intro lit
  induction lit with
  | nil => intro rest; rfl
  | cons c ls ih => intro rest; simp [expectChars, ih]

/-- The uniform one-step unfolding of `readString` on a cons cell. -/
theorem readString_cons (c : Char) (l : List Char) :
    readString (c :: l) =
      (if c = '"' then some ([], l)
      else if c = '\\' then
        match l with
        | [] => none
        | d :: rest =>
          match unescapeChar d with
          | none => none
          | some u =>
            match readString rest with
            | none => none
            | some p => some (u :: p.1, p.2)
      else
        match readString l with
        | none => none
        | some p => some (c :: p.1, p.2)) := by
  cases l with
  | nil =>
    by_cases h1 : c = '"'
    · simp [readString, h1]
    · by_cases h2 : c = '\\' <;> simp [readString, h1, h2]
  | cons d rest => rfl

/-- Reading back an escaped string body recovers the original characters
and stops at the closing quote. -/
theorem readString_escapeList :
    ∀ (l rest : List Char),
      readString (escapeList l ++ ('"' :: rest)) = some (l, rest) := by
  intro l
  induction l with
  | nil => intro rest; simp [escapeList, readString_cons]
  | cons c cs ih =>
    intro rest
    by_cases h1 : c = '"'
    · subst h1
      simp [escapeList, escapeChar, readString_cons, unescapeChar, ih]
    · by_cases h2 : c = '\\'
      · subst h2
        simp [escapeList, escapeChar, readString_cons, unescapeChar, ih]
      · by_cases h3 : c = '\n'
        · subst h3
          simp [escapeList, escapeChar, readString_cons, unescapeChar, ih]
        · by_cases h4 : c = '\t'
          · subst h4
            simp [escapeList, escapeChar, readString_cons, unescapeChar, ih]
          · by_cases h5 : c = '\r'
            · subst h5
              simp [escapeList, escapeChar, readString_cons, unescapeChar, ih]
            · simp [escapeList, escapeChar, readString_cons, unescapeChar,
                h1, h2, h3, h4, h5, ih]

/-- The digit character of a digit value is a digit. -/
theorem digitChar_isDigit : ∀ k, k < 10 → isDigitChar (digitChar k) = true := by
  decide

/-- Reading back the digit character of a digit value. -/
theorem digitVal_digitChar : ∀ k, k < 10 → digitVal (digitChar k) = k := by
  decide

/-- Unfolding `natToChars` below ten. -/
theorem natToChars_lt (n : Nat) (h : n < 10) :
    natToChars n = [digitChar n] := by
  conv_lhs => rw [natToChars]
  rw [if_pos h]

/-- Unfolding `natToChars` at ten or above. -/
theorem natToChars_ge (n : Nat) (h : ¬ n < 10) :
    natToChars n = natToChars (n / 10) ++ [digitChar (n % 10)] := by
  conv_lhs => rw [natToChars]
  rw [if_neg h]

/-- The decimal print of a number is a nonempty all-digit sequence. -/
theorem natToChars_digits :
    ∀ n : Nat, natToChars n ≠ [] ∧
      (∀ c ∈ natToChars n, isDigitChar c = true) := by
  intro n
  induction n using Nat.strong_induction_on with
  | _ n ih =>
    by_cases h : n < 10
    · rw [natToChars_lt n h]
      refine ⟨by simp, ?_⟩
      intro c hc
      simp at hc
      subst hc
      exact digitChar_isDigit n h
    · rw [natToChars_ge n h]
      have hlt : n / 10 < n := Nat.div_lt_self (by omega) (by omega)
      obtain ⟨hne, hall⟩ := ih (n / 10) hlt
      refine ⟨by simp [hne], ?_⟩
      intro c hc
      rcases List.mem_append.mp hc with hl | hr
      · exact hall c hl
      · simp at hr
        subst hr
        exact digitChar_isDigit (n % 10) (Nat.mod_lt _ (by omega))

/-- `readDigits` consumes an all-digit prefix, folding its value into
the accumulator. -/
theorem readDigits_append :
    ∀ (l : List Char) (acc : Nat) (rest : List Char),
      (∀ c ∈ l, isDigitChar c = true) →
      readDigits acc (l ++ rest) =
        readDigits (l.foldl (fun a c => a * 10 + digitVal c) acc) rest := by
  intro l
  induction l with
  | nil => intro acc rest _; rfl
  | cons c cs ih =>
    intro acc rest h
    have hc : isDigitChar c = true := h c (by simp)
    rw [List.cons_append]
    rw [show readDigits acc (c :: (cs ++ rest)) =
      readDigits (acc * 10 + digitVal c) (cs ++ rest) from by
        simp [readDigits, hc]]
    rw [ih (acc * 10 + digitVal c) rest (fun d hd => h d (by simp [hd]))]
    rfl

/-- `readDigits` stops at a non-digit boundary. -/
theorem readDigits_stop :
    ∀ (acc : Nat) (rest : List Char),
      (∀ d ds, rest = d :: ds → isDigitChar d = false) →
      readDigits acc rest = (acc, rest) := by
  intro acc rest h
  cases rest with
  | nil => rfl
  | cons d ds => simp [readDigits, h d ds rfl]

/-- Folding the digit characters of `n` into an accumulator. -/
theorem foldl_digits_natToChars :
    ∀ (n acc : Nat),
      (natToChars n).foldl (fun a c => a * 10 + digitVal c) acc =
        acc * 10 ^ (natToChars n).length + n := by
  intro n
  induction n using Nat.strong_induction_on with
  | _ n ih =>
    intro acc
    by_cases h : n < 10
    · rw [natToChars_lt n h]
      simp [digitVal_digitChar n h]
    · have hlt : n / 10 < n := Nat.div_lt_self (by omega) (by omega)
      have hmod : n % 10 < 10 := Nat.mod_lt _ (by omega)
      rw [natToChars_ge n h, List.foldl_append, ih (n / 10) hlt acc]
      simp only [List.foldl_cons, List.foldl_nil, List.length_append,
        List.length_cons, List.length_nil]
      rw [digitVal_digitChar _ hmod, pow_succ, ← mul_assoc]
      have hdm := Nat.div_add_mod n 10
      generalize acc * 10 ^ (natToChars (n / 10)).length = Q
      omega

/-- Every printed JSON value starts with a character that is neither a
closing bracket nor a closing brace. -/
theorem printJson_head :
    ∀ j : Json, ∃ c cs, printJson j = c :: cs ∧ c ≠ ']' ∧ c ≠ '}' := by
  intro j
  cases j with
  | str s => exact ⟨'"', _, rfl, by decide, by decide⟩
  | num n =>
    obtain ⟨hne, hall⟩ := natToChars_digits n
    cases hh : natToChars n with
    | nil => exact absurd hh hne
    | cons d ds =>
      have hd : isDigitChar d = true := hall d (by rw [hh]; simp)
      refine ⟨d, ds, by simp [printJson, hh], ?_, ?_⟩
      · intro he; rw [he] at hd; exact absurd hd (by decide)
      · intro he; rw [he] at hd; exact absurd hd (by decide)
  | bool b =>
    cases b with
    | false => exact ⟨'f', _, rfl, by decide, by decide⟩
    | true => exact ⟨'t', _, rfl, by decide, by decide⟩
  | null => exact ⟨'n', _, rfl, by decide, by decide⟩
  | arr l =>
    cases l with
    | nil => exact ⟨'[', _, rfl, by decide, by decide⟩
    | cons h t => exact ⟨'[', _, rfl, by decide, by decide⟩
  | obj o =>
    cases o with
    | nil => exact ⟨'{', _, rfl, by decide, by decide⟩
    | cons k v t => exact ⟨'{', _, rfl, by decide, by decide⟩

/-! Parser fuel bounds. -/

mutual
theorem weightJson_le : ∀ j : Json, weightJson j ≤ 2 * (printJson j).length
  | Json.str s => by
    simp [weightJson, printJson, printString]
    omega
  | Json.num n => by
    obtain ⟨hne, _⟩ := natToChars_digits n
    simp only [weightJson, printJson]
    cases hh : natToChars n with
    | nil => exact absurd hh hne
    | cons d ds => simp [hh]; omega
  | Json.bool true => by simp [weightJson, printJson]
  | Json.bool false => by simp [weightJson, printJson]
  | Json.null => by simp [weightJson, printJson]
  | Json.arr JsonList.nil => by simp [weightJson, printJson]
  | Json.arr (JsonList.cons h t) => by
    have ih := weightElems_le (JsonList.cons h t)
    simp only [weightJson, printJson, List.length_cons, List.length_append]
    simp at ih ⊢
    omega
  | Json.obj JsonObj.nil => by simp [weightJson, printJson]
  | Json.obj (JsonObj.cons k v t) => by
    have ih := weightMembers_le (JsonObj.cons k v t)
    simp only [weightJson, printJson, List.length_cons, List.length_append]
    simp at ih ⊢
    omega

theorem weightElems_le :
    ∀ l : JsonList, weightElems l ≤ 2 * (printElems l).length + 1
  | JsonList.nil => by simp [weightElems, printElems]
  | JsonList.cons h JsonList.nil => by
    have ih := weightJson_le h
    simp [weightElems, printElems]
    omega
  | JsonList.cons h (JsonList.cons h2 t) => by
    have ih1 := weightJson_le h
    have ih2 := weightElems_le (JsonList.cons h2 t)
    simp [weightElems, printElems] at ih2 ⊢
    omega

theorem weightMembers_le :
    ∀ o : JsonObj, weightMembers o ≤ 2 * (printMembers o).length + 1
  | JsonObj.nil => by simp [weightMembers, printMembers]
  | JsonObj.cons k v JsonObj.nil => by
    have ih := weightJson_le v
    simp [weightMembers, printMembers]
    omega
  | JsonObj.cons k v (JsonObj.cons k2 v2 t) => by
    have ih1 := weightJson_le v
    have ih2 := weightMembers_le (JsonObj.cons k2 v2 t)
    simp [weightMembers, printMembers] at ih2 ⊢
    omega
end

/-! Round trip of the canonical JSON codec. -/
mutual
theorem parseVal_print :
    ∀ (j : Json) (fuel : Nat) (rest : List Char)
      (hw : weightJson j ≤ fuel)
      (hrest : ∀ d ds, rest = d :: ds → isDigitChar d = false),
      parseVal fuel (printJson j ++ rest) = some (j, rest)
  | Json.str s, fuel, rest, hw, _ => by
    cases fuel with
    | zero => simp only [weightJson] at hw; omega
    | succ f =>
      have h : printJson (Json.str s) ++ rest =
          '"' :: (escapeList s.data ++ ('"' :: rest)) := by
        simp [printJson, printString]
      rw [h]
      simp [parseVal, readString_escapeList]
  | Json.num n, fuel, rest, hw, hrest => by
    cases fuel with
    | zero => simp only [weightJson] at hw; omega
    | succ f =>
      obtain ⟨hne, hall⟩ := natToChars_digits n
      cases hh : natToChars n with
      | nil => exact absurd hh hne
      | cons d ds =>
        have hd : isDigitChar d = true := hall d (by rw [hh]; simp)
        have hd1 : ¬ d = '"' := by
          intro he; rw [he] at hd; exact absurd hd (by decide)
        have hin : printJson (Json.num n) ++ rest = d :: (ds ++ rest) := by
          simp [printJson, hh]
        have hr : readDigits 0 (d :: (ds ++ rest)) = (n, rest) := by
          have h2 : d :: (ds ++ rest) = (d :: ds) ++ rest := by simp
          rw [h2, ← hh, readDigits_append (natToChars n) 0 rest hall,
            foldl_digits_natToChars n 0]
          simp only [Nat.zero_mul, Nat.zero_add]
          exact readDigits_stop n rest hrest
        rw [hin]
        simp only [parseVal]
        rw [if_neg hd1, if_pos hd]
        simp only [hr]
  | Json.bool true, fuel, rest, hw, _ => by
    cases fuel with
    | zero => simp only [weightJson] at hw; omega
    | succ f =>
      have hin : printJson (Json.bool true) ++ rest =
          't' :: (['r', 'u', 'e'] ++ rest) := by simp [printJson]
      rw [hin]
      simp [parseVal, isDigitChar, expectChars]
  | Json.bool false, fuel, rest, hw, _ => by
    cases fuel with
    | zero => simp only [weightJson] at hw; omega
    | succ f =>
      have hin : printJson (Json.bool false) ++ rest =
          'f' :: (['a', 'l', 's', 'e'] ++ rest) := by simp [printJson]
      rw [hin]
      simp [parseVal, isDigitChar, expectChars]
  | Json.null, fuel, rest, hw, _ => by
    cases fuel with
    | zero => simp only [weightJson] at hw; omega
    | succ f =>
      have hin : printJson Json.null ++ rest =
          'n' :: (['u', 'l', 'l'] ++ rest) := by simp [printJson]
      rw [hin]
      simp [parseVal, isDigitChar, expectChars]
  | Json.arr JsonList.nil, fuel, rest, hw, _ => by
    cases fuel with
    | zero => simp only [weightJson] at hw; omega
    | succ f =>
      have hin : printJson (Json.arr JsonList.nil) ++ rest =
          '[' :: (']' :: rest) := by simp [printJson]
      rw [hin]
      simp [parseVal, isDigitChar]
  | Json.arr (JsonList.cons h t), fuel, rest, hw, _ => by
    cases fuel with
    | zero => simp only [weightJson] at hw; omega
    | succ f =>
      have hwe : weightElems (JsonList.cons h t) ≤ f := by
        simp only [weightJson] at hw; omega
      obtain ⟨c, cs, hcs, hc1, _⟩ := printJson_head h
      have hY : ∃ Y, printElems (JsonList.cons h t) = printJson h ++ Y := by
        cases t with
        | nil => exact ⟨[], by simp [printElems]⟩
        | cons h2 t2 =>
          exact ⟨',' :: printElems (JsonList.cons h2 t2), rfl⟩
      obtain ⟨Y, hYe⟩ := hY
      have hin : printJson (Json.arr (JsonList.cons h t)) ++ rest =
          '[' :: (printElems (JsonList.cons h t) ++ (']' :: rest)) := by
        simp [printJson]
      have hshape : printElems (JsonList.cons h t) ++ (']' :: rest) =
          c :: (cs ++ (Y ++ (']' :: rest))) := by
        simp [hYe, hcs]
      have hrec : parseElems f (c :: (cs ++ (Y ++ (']' :: rest)))) =
          some (JsonList.cons h t, rest) := by
        rw [← hshape]
        exact parseElems_print (JsonList.cons h t) f rest (by simp) hwe
      rw [hin]
      simp [parseVal, isDigitChar, hshape, hc1, hrec]
  | Json.obj JsonObj.nil, fuel, rest, hw, _ => by
    cases fuel with
    | zero => simp only [weightJson] at hw; omega
    | succ f =>
      have hin : printJson (Json.obj JsonObj.nil) ++ rest =
          '{' :: ('}' :: rest) := by simp [printJson]
      rw [hin]
      simp [parseVal, isDigitChar]
  | Json.obj (JsonObj.cons k v t), fuel, rest, hw, _ => by
    cases fuel with
    | zero => simp only [weightJson] at hw; omega
    | succ f =>
      have hwm : weightMembers (JsonObj.cons k v t) ≤ f := by
        simp only [weightJson] at hw; omega
      have hW : ∃ W, printMembers (JsonObj.cons k v t) ++ ('}' :: rest) =
          '"' :: W := by
        cases t with
        | nil =>
          refine ⟨escapeList k.data ++ ('"' :: (':' ::
            (printJson v ++ ('}' :: rest)))), ?_⟩
          simp [printMembers, printString]
        | cons k2 v2 t2 =>
          refine ⟨escapeList k.data ++ ('"' :: (':' :: (printJson v ++
            (',' :: (printMembers (JsonObj.cons k2 v2 t2) ++
              ('}' :: rest)))))), ?_⟩
          simp [printMembers, printString]
      obtain ⟨W, hWe⟩ := hW
      have hin : printJson (Json.obj (JsonObj.cons k v t)) ++ rest =
          '{' :: (printMembers (JsonObj.cons k v t) ++ ('}' :: rest)) := by
        simp [printJson]
      have hrec : parseMembers f ('"' :: W) =
          some (JsonObj.cons k v t, rest) := by
        rw [← hWe]
        exact parseMembers_print (JsonObj.cons k v t) f rest (by simp) hwm
      rw [hin]
      simp [parseVal, isDigitChar, hWe, hrec]

theorem parseElems_print :
    ∀ (l : JsonList) (fuel : Nat) (rest : List Char)
      (hne : l ≠ JsonList.nil) (hw : weightElems l ≤ fuel),
      parseElems fuel (printElems l ++ (']' :: rest)) = some (l, rest)
  | JsonList.nil, _, _, hne, _ => absurd rfl hne
  | JsonList.cons h JsonList.nil, fuel, rest, _, hw => by
    cases fuel with
    | zero => simp only [weightElems] at hw; omega
    | succ f =>
      have hwj : weightJson h ≤ f := by
        simp only [weightElems] at hw; omega
      have hin : printElems (JsonList.cons h JsonList.nil) ++
          (']' :: rest) = printJson h ++ (']' :: rest) := by
        simp [printElems]
      have hv := parseVal_print h f (']' :: rest) hwj
        (by intro d ds hds; cases hds; decide)
      rw [hin]
      simp [parseElems, hv]
  | JsonList.cons h (JsonList.cons h2 t2), fuel, rest, _, hw => by
    cases fuel with
    | zero => simp only [weightElems] at hw; omega
    | succ f =>
      have hwj : weightJson h ≤ f := by
        simp only [weightElems] at hw; omega
      have hwe : weightElems (JsonList.cons h2 t2) ≤ f := by
        simp only [weightElems] at hw ⊢; omega
      have hin : printElems (JsonList.cons h (JsonList.cons h2 t2)) ++
          (']' :: rest) = printJson h ++
            (',' :: (printElems (JsonList.cons h2 t2) ++ (']' :: rest))) := by
        simp [printElems]
      have hv := parseVal_print h f
        (',' :: (printElems (JsonList.cons h2 t2) ++ (']' :: rest))) hwj
        (by intro d ds hds; cases hds; decide)
      have hrec := parseElems_print (JsonList.cons h2 t2) f rest
        (by simp) hwe
      rw [hin]
      simp [parseElems, hv, hrec]

theorem parseMembers_print :
    ∀ (o : JsonObj) (fuel : Nat) (rest : List Char)
      (hne : o ≠ JsonObj.nil) (hw : weightMembers o ≤ fuel),
      parseMembers fuel (printMembers o ++ ('}' :: rest)) = some (o, rest)
  | JsonObj.nil, _, _, hne, _ => absurd rfl hne
  | JsonObj.cons k v JsonObj.nil, fuel, rest, _, hw => by
    cases fuel with
    | zero => simp only [weightMembers] at hw; omega
    | succ f =>
      have hwv : weightJson v ≤ f := by
        simp only [weightMembers] at hw; omega
      have hin : printMembers (JsonObj.cons k v JsonObj.nil) ++
          ('}' :: rest) = '"' :: (escapeList k.data ++
            ('"' :: (':' :: (printJson v ++ ('}' :: rest))))) := by
        simp [printMembers, printString]
      have hkey := readString_escapeList k.data
        (':' :: (printJson v ++ ('}' :: rest)))
      have hv := parseVal_print v f ('}' :: rest) hwv
        (by intro d ds hds; cases hds; decide)
      rw [hin]
      simp [parseMembers, hkey, hv]
  | JsonObj.cons k v (JsonObj.cons k2 v2 t2), fuel, rest, _, hw => by
    cases fuel with
    | zero => simp only [weightMembers] at hw; omega
    | succ f =>
      have hwv : weightJson v ≤ f := by
        simp only [weightMembers] at hw; omega
      have hwm : weightMembers (JsonObj.cons k2 v2 t2) ≤ f := by
        simp only [weightMembers] at hw ⊢; omega
      have hin : printMembers (JsonObj.cons k v
          (JsonObj.cons k2 v2 t2)) ++ ('}' :: rest) =
          '"' :: (escapeList k.data ++ ('"' :: (':' :: (printJson v ++
            (',' :: (printMembers (JsonObj.cons k2 v2 t2) ++
              ('}' :: rest))))))) := by
        simp [printMembers, printString]
      have hkey := readString_escapeList k.data
        (':' :: (printJson v ++ (',' ::
          (printMembers (JsonObj.cons k2 v2 t2) ++ ('}' :: rest)))))
      have hv := parseVal_print v f
        (',' :: (printMembers (JsonObj.cons k2 v2 t2) ++ ('}' :: rest)))
        hwv (by intro d ds hds; cases hds; decide)
      have hrec := parseMembers_print (JsonObj.cons k2 v2 t2) f rest
        (by simp) hwm
      rw [hin]
      simp [parseMembers, hkey, hv, hrec]
end

/-- Parsing the canonical print of an object with `NewFromString`
recovers the object. -/
theorem NewFromString_printObj (o : JsonObj) :
    NewFromString (printJson (Json.obj o)) = Except.ok o := by
  have hw : weightJson (Json.obj o) ≤
      2 * (printJson (Json.obj o)).length + 2 :=
    Nat.le_trans (weightJson_le (Json.obj o)) (by omega)
  have hp := parseVal_print (Json.obj o)
    (2 * (printJson (Json.obj o)).length + 2) [] hw
    (fun d ds h => nomatch h)
  rw [List.append_nil] at hp
  unfold NewFromString
  rw [hp]

/-- A wire-shape-valid reply passes both validations and serializes to
the canonical print of its JSON object. -/
theorem Reply_ToBytes_valid (r : Reply)
    (h : r.status = okStatus ∨ (r.status = failStatus ∧ r.message ≠ "")) :
    r.ToBytes = Except.ok (printJson (Json.obj r.toJsonObj)) := by
  have hf : r.valid_fail = Except.ok () := by
    unfold Reply.valid_fail
    rcases h with h | ⟨h1, h2⟩
    · rw [if_neg]
      intro hc
      rw [h] at hc
      exact absurd hc.1 (by decide)
    · exact if_neg (fun hc => h2 hc.2)
  have hs : r.valid_status = Except.ok () := by
    unfold Reply.valid_status
    rcases h with h | ⟨h1, _⟩
    · exact if_neg (fun hc => hc.2 h)
    · exact if_neg (fun hc => hc.1 h1)
  unfold Reply.ToBytes
  rw [hf, hs]

/-- Unmarshalling the JSON object of a wire-shape-valid reply
reconstructs the reply. -/
theorem ParseJsonReply_toJsonObj (r : Reply)
    (h : r.status = okStatus ∨ (r.status = failStatus ∧ r.message ≠ "")) :
    ParseJsonReply r.toJsonObj = Except.ok r := by
  have h1 : readStringField r.toJsonObj statusKey = Except.ok r.status := by
    simp [readStringField, Reply.toJsonObj, JsonObj.lookup]
  have h2 : readStringField r.toJsonObj messageKey =
      Except.ok r.message := by
    simp [readStringField, Reply.toJsonObj, JsonObj.lookup, statusKey,
      messageKey]
  have h3 : readObjField r.toJsonObj parametersKey =
      Except.ok r.parameters := by
    simp [readObjField, Reply.toJsonObj, JsonObj.lookup, statusKey,
      messageKey, parametersKey]
  have he : (⟨r.status, r.message, r.parameters⟩ : Reply) = r := rfl
  simp [ParseJsonReply, h1, h2, h3, he, Reply_ToBytes_valid r h]

/-- Parsing the canonical print of a broadcast's JSON object recovers
the broadcast. -/
theorem parse_broadcast_body_print (r : Reply) (topic : String)
    (h : r.status = okStatus ∨ (r.status = failStatus ∧ r.message ≠ "")) :
    parse_broadcast_body
      (printJson (Json.obj (Broadcast.toJsonObj ⟨r, topic⟩))) =
      Except.ok ⟨r, topic⟩ := by
  have h1 : (Broadcast.toJsonObj ⟨r, topic⟩).GetString topicKey =
      Except.ok topic := by
    simp [Broadcast.toJsonObj, JsonObj.GetString, JsonObj.lookup,
      replyKey, topicKey]
  have h2 : (Broadcast.toJsonObj ⟨r, topic⟩).GetKeyValue replyKey =
      Except.ok (Reply.toJsonObj r) := by
    simp [Broadcast.toJsonObj, JsonObj.GetKeyValue, JsonObj.lookup]
  simp [parse_broadcast_body, NewFromString_printObj, h1, h2,
    ParseJsonReply_toJsonObj r h]

/-- Claim C9 (confirmed): a Reply satisfying the wire-shape constraints
(status `"OK"`, or status `"fail"` with a non-empty message) survives the
encode/decode round trip identically, and a Broadcast built from such a
Reply survives `ToBytes` followed by `ParseBroadcast` with the same
topic and reply. -/
theorem reply_broadcast_roundtrip (r : Reply) (topic : String)
    (h : r.status = okStatus ∨ (r.status = failStatus ∧ r.message ≠ "")) :
    (∃ s, r.ToString = Except.ok s ∧ ParseReply s = Except.ok r) ∧
    ParseBroadcast (Broadcast.ToBytes ⟨r, topic⟩) =
      Except.ok (⟨r, topic⟩ : Broadcast) := by
  constructor
  · refine ⟨printJson (Json.obj r.toJsonObj), ?_, ?_⟩
    · unfold Reply.ToString
      exact Reply_ToBytes_valid r h
    · unfold ParseReply
      rw [NewFromString_printObj]
      exact ParseJsonReply_toJsonObj r h
  · have hb : Broadcast.ToBytes ⟨r, topic⟩ =
        printJson (Json.obj (Broadcast.toJsonObj ⟨r, topic⟩)) := rfl
    have htl : printJson (Json.obj (Broadcast.toJsonObj ⟨r, topic⟩)) =
        '{' :: (printMembers (Broadcast.toJsonObj ⟨r, topic⟩) ++ ['}']) := by
      simp [Broadcast.toJsonObj, printJson]
    unfold ParseBroadcast
    rw [hb, htl]
    rw [show List.dropWhile (fun c => c ≠ '{')
        ('{' :: (printMembers (Broadcast.toJsonObj ⟨r, topic⟩) ++ ['}'])) =
        '{' :: (printMembers (Broadcast.toJsonObj ⟨r, topic⟩) ++ ['}'])
      from by simp [List.dropWhile_cons]]
    rw [← htl]
    exact parse_broadcast_body_print r topic h

/-- Witness for C9: a concrete failure reply with a parameter map makes
the round trip through the broadcast wire encoding. -/
theorem reply_broadcast_roundtrip_witness :
    ParseBroadcast (Broadcast.ToBytes
      ⟨⟨"fail", "boom", JsonObj.cons ("why") (Json.str "x") JsonObj.nil⟩,
        "net_1"⟩) =
      Except.ok ⟨⟨"fail", "boom",
        JsonObj.cons ("why") (Json.str "x") JsonObj.nil⟩, "net_1"⟩ :=
  (reply_broadcast_roundtrip
    ⟨"fail", "boom", JsonObj.cons ("why") (Json.str "x") JsonObj.nil⟩
    ("net_1") (Or.inr ⟨rfl, by decide⟩)).2

/-- Dropping up to the first brace ignores a brace-free prefix. -/
theorem dropWhile_brace_append :
    ∀ (l1 l2 : List Char), (∀ c ∈ l1, c ≠ '{') →
      List.dropWhile (fun c => c ≠ '{') (l1 ++ l2) =
        List.dropWhile (fun c => c ≠ '{') l2 := by
  intro l1
  induction l1 with
  | nil => intro l2 _; rfl
  | cons c cs ih =>
    intro l2 h
    rw [List.cons_append, List.dropWhile_cons]
    rw [if_pos (by simp [h c (by simp)])]
    exact ih l2 (fun d hd => h d (by simp [hd]))

/-- The first element surviving the drop to the first brace is a brace,
and the original list contains a brace. -/
theorem dropWhile_brace_head :
    ∀ (l : List Char) (c : Char) (cs : List Char),
      List.dropWhile (fun x => x ≠ '{') l = c :: cs →
      c = '{' ∧ '{' ∈ l := by
  intro l
  induction l with
  | nil => intro c cs h; cases h
  | cons a as ih =>
    intro c cs h
    by_cases ha : a = '{'
    · rw [List.dropWhile_cons] at h
      simp [ha] at h
      exact ⟨h.1.symm, by simp [ha]⟩
    · rw [List.dropWhile_cons] at h
      simp only [if_pos (by simp [ha] : (decide ¬(a = '{')) = true)] at h
      obtain ⟨h1, h2⟩ := ih c cs h
      exact ⟨h1, by simp [h2]⟩

/-- Unfolding `ParseBroadcast` when the wire string has no brace. -/
theorem ParseBroadcast_nil (msg : List Char)
    (h : msg.dropWhile (fun c => c ≠ '{') = []) :
    ParseBroadcast msg = Except.error
      "invalid broadcast message, no topic and reply boundary" := by
  unfold ParseBroadcast
  rw [h]

/-- Unfolding `ParseBroadcast` from the first brace on. -/
theorem ParseBroadcast_cons (msg : List Char) (c : Char) (cs : List Char)
    (h : msg.dropWhile (fun x => x ≠ '{') = c :: cs) :
    ParseBroadcast msg = parse_broadcast_body (c :: cs) := by
  unfold ParseBroadcast
  rw [h]

/-- Claim C10 (confirmed): `ParseBroadcast` ignores everything before
the first brace of the wire string — two messages differing only in a
brace-free prefix parse identically; it errors exactly when the string
has no brace or the remainder from the first brace is not valid
broadcast/reply JSON; and on success the returned topic is read from the
JSON body's topic field, not from the wire prefix. -/
theorem parse_broadcast_brace_skip (msg p rest : List Char) :
    (('{' ∉ msg) → ParseBroadcast msg =
      Except.error
        "invalid broadcast message, no topic and reply boundary") ∧
    ((∀ c ∈ p, c ≠ '{') →
      ParseBroadcast (p ++ rest) = ParseBroadcast rest) ∧
    (isOkE (ParseBroadcast msg) = true ↔
      ('{' ∈ msg ∧ isOkE (parse_broadcast_body
        (msg.dropWhile (fun c => c ≠ '{'))) = true)) ∧
    (∀ b, ParseBroadcast msg = Except.ok b →
      ∃ dat, NewFromString (msg.dropWhile (fun c => c ≠ '{')) =
          Except.ok dat ∧ dat.GetString topicKey = Except.ok b.topic) := by
  refine ⟨?_, ?_, ?_, ?_⟩
  · intro hnotin
    refine ParseBroadcast_nil msg ?_
    rw [List.dropWhile_eq_nil_iff]
    intro x hx
    simp only [decide_eq_true_eq]
    intro he
    exact hnotin (he ▸ hx)
  · intro hp
    unfold ParseBroadcast
    rw [dropWhile_brace_append p rest hp]
  · constructor
    · intro hok
      cases hdw : msg.dropWhile (fun c => c ≠ '{') with
      | nil =>
        rw [ParseBroadcast_nil msg hdw] at hok
        simp [isOkE] at hok
      | cons c cs =>
        obtain ⟨_, hmem⟩ := dropWhile_brace_head msg c cs hdw
        rw [ParseBroadcast_cons msg c cs hdw] at hok
        exact ⟨hmem, hok⟩
    · rintro ⟨hmem, hok⟩
      cases hdw : msg.dropWhile (fun c => c ≠ '{') with
      | nil =>
        rw [List.dropWhile_eq_nil_iff] at hdw
        have := hdw '{' hmem
        simp at this
      | cons c cs =>
        rw [ParseBroadcast_cons msg c cs hdw]
        rwa [hdw] at hok
  · intro b hb
    cases hdw : msg.dropWhile (fun c => c ≠ '{') with
    | nil =>
      rw [ParseBroadcast_nil msg hdw] at hb
      simp at hb
    | cons c cs =>
      rw [ParseBroadcast_cons msg c cs hdw] at hb
      unfold parse_broadcast_body at hb
      cases h1 : NewFromString (c :: cs) with
      | error e => simp only [h1] at hb; exact Except.noConfusion hb
      | ok dat =>
        simp only [h1] at hb
        cases h2 : dat.GetString topicKey with
        | error e => simp only [h2] at hb; exact Except.noConfusion hb
        | ok t =>
          simp only [h2] at hb
          cases h3 : dat.GetKeyValue replyKey with
          | error e => simp only [h3] at hb; exact Except.noConfusion hb
          | ok rr =>
            simp only [h3] at hb
            cases h4 : ParseJsonReply rr with
            | error e => simp only [h4] at hb; exact Except.noConfusion hb
            | ok rep =>
              simp only [h4, Except.ok.injEq] at hb
              subst hb
              exact ⟨dat, rfl, h2⟩

/-- Witness for C10: a topic prefix before the JSON body is ignored —
prefixed and unprefixed wire strings parse to the same broadcast. -/
theorem parse_broadcast_brace_skip_witness :
    ParseBroadcast (('t' :: 'B' :: ' ' :: []) ++
      Broadcast.ToBytes ⟨⟨"OK", "", JsonObj.nil⟩, "tB"⟩) =
      ParseBroadcast (Broadcast.ToBytes ⟨⟨"OK", "", JsonObj.nil⟩, "tB"⟩) :=
  (parse_broadcast_brace_skip [] ('t' :: 'B' :: ' ' :: [])
    (Broadcast.ToBytes ⟨⟨"OK", "", JsonObj.nil⟩, "tB"⟩)).2.1 (by decide)
